import Mathlib

/-!
Shallow embedding of the spatial-audio utility routines
(`spaudiopy/utils.py`) and proofs of the specified properties.

Modelling conventions:
* numpy `ndarray`s of arbitrary rank are modelled by `NDArray`: a shape
  (list of dimension sizes) together with the flat, row-major data.
  `np.squeeze` removes every singleton dimension from the shape and leaves
  the flat data unchanged.
* 2-D channel matrices (`Nchannel x Nsamples`) are modelled as
  `List (List ℚ)`, one inner list per channel (row).
* the vectorized numeric routines (`cart2sph`, `sph2cart`,
  `matlab_sph2cart`, `haversine`, `deg2rad`, `rad2deg`, `db`) act
  elementwise; they are embedded as their scalar elementwise action over
  idealized real arithmetic.  IEEE special values required by the spec are
  modelled in `EReal` (`np.log10 0 = -∞`).
* fallible routines (those that `raise`) return `Except String _`.
-/

namespace SpaUtils

/-- A numpy `ndarray`: shape plus flat row-major data. -/
structure NDArray where
  shape : List Nat
  data : List ℚ
  deriving DecidableEq, Repr

/-- Model of `np.squeeze`: drop all singleton dimensions; flat data unchanged. -/
def squeeze (a : NDArray) : NDArray :=
  ⟨a.shape.filter (· ≠ 1), a.data⟩

/-- Model of `asarray_1d(a)`: squeeze the input; a 0-d scalar is reshaped to `(1,)`;
more than one remaining dimension raises `ValueError`. -/
def asarray_1d (a : NDArray) : Except String NDArray :=
  let result := squeeze a
  if result.shape.length = 0 then
    .ok ⟨[1], result.data⟩
  else if result.shape.length > 1 then
    .error "array must be one-dimensional"
  else
    .ok result

/-- Model of `np.atleast_2d`: 0-d becomes `(1,1)`, 1-d `(n,)` becomes `(1,n)`,
higher ranks are unchanged. -/
def atleast_2d (a : NDArray) : NDArray :=
  match a.shape with
  | [] => ⟨[1, 1], a.data⟩
  | [n] => ⟨[1, n], a.data⟩
  | _ => a

/-- Model of `np.vstack` on two 2-D arrays: row-wise concatenation; numpy raises
unless the column counts agree. -/
def vstack2 (M1 N1 M2 N2 : Nat) (d1 d2 : List ℚ) : Except String NDArray :=
  if N1 = N2 then
    .ok ⟨[M1 + M2, N1], d1 ++ d2⟩
  else
    .error "all the input array dimensions must match"

/-- Model of `np.hstack` on two 2-D arrays: column-wise concatenation (rows are
joined chunk by chunk); numpy raises unless the row counts agree. -/
def hstack2 (M1 N1 M2 N2 : Nat) (d1 d2 : List ℚ) : Except String NDArray :=
  if M1 = M2 then
    .ok ⟨[M1, N1 + N2], (((d1.toChunks N1).zipWith (· ++ ·) (d2.toChunks N2)).flatten)⟩
  else
    .error "all the input array dimensions must match"

/-- Model of `stack(vector_1, vector_2)`: promote both inputs to at-least-2D; if the
first dimensions agree and that dimension is strictly smaller than the other
dimension of one of the arrays, stack vertically; else if the second
dimensions agree and are strictly smaller, stack horizontally; otherwise
raise.  The result is squeezed. -/
def stack (vector_1 vector_2 : NDArray) : Except String NDArray :=
  let a1 := atleast_2d vector_1
  let a2 := atleast_2d vector_2
  match a1.shape, a2.shape with
  | [M1, N1], [M2, N2] =>
    if M1 = M2 ∧ (M1 < N1 ∨ M2 < N2) then
      (vstack2 M1 N1 M2 N2 a1.data a2.data).map squeeze
    else if N1 = N2 ∧ (N1 < M1 ∨ N2 < M2) then
      (hstack2 M1 N1 M2 N2 a1.data a2.data).map squeeze
    else
      .error "vector_1 and vector_2 dont have a common dimension."
  | _, _ => .error "too many values to unpack"

/-- Shape equality of two channel matrices: same number of rows and the
rows pairwise of the same length (for uniform numpy matrices this is
exactly `left.shape == right.shape`). -/
def sameShape (a b : List (List ℚ)) : Prop :=
  a.length = b.length ∧ a.map List.length = b.map List.length

instance (a b : List (List ℚ)) : Decidable (sameShape a b) := by
  unfold sameShape; infer_instance

/-- Model of `np.repeat(m, 2, axis=0)`: every row duplicated in place. -/
def repeatRows (m : List (List ℚ)) : List (List ℚ) :=
  m.flatMap fun row => [row, row]

/-- Model of the slice assignment `out[1::2, :] = r`: overwrite the odd-indexed rows of `out` with the
rows of `r`, in order. -/
def setOddRows : List (List ℚ) → List (List ℚ) → List (List ℚ)
  | a :: _ :: rest, r :: rs => a :: r :: setOddRows rest rs
  | m, _ => m

/-- Model of `interleave_channels(left, right, style)`: raise unless the shapes
agree; with `style = 'SSR'` additionally raise unless there are exactly 360
channels; otherwise duplicate every left row and overwrite the odd rows
with the right channel. -/
def interleave_channels (left_channel right_channel : List (List ℚ))
    (style : Option String) : Except String (List (List ℚ)) :=
  if ¬ sameShape left_channel right_channel then
    .error "left_channel and right_channel have to be of same dimensions!"
  else if style = some "SSR" ∧ ¬ left_channel.length = 360 then
    .error "Provided arrays to have 360 channels (Nchannel x Nsamples)."
  else
    .ok (setOddRows (repeatRows left_channel) right_channel)

/-- Python float `x % m`: the remainder carries the sign of the divisor,
`x % m = x - m * ⌊x / m⌋`. -/
noncomputable def fmod (x m : ℝ) : ℝ := x - m * ⌊x / m⌋

/-- Model of `deg2rad(deg)`: `deg % 360 / 180 * np.pi`, elementwise. -/
noncomputable def deg2rad (deg : ℝ) : ℝ := fmod deg 360 / 180 * Real.pi

/-- Model of `rad2deg(rad)`: `rad / np.pi * 180 % 360`, elementwise. -/
noncomputable def rad2deg (rad : ℝ) : ℝ := fmod (rad / Real.pi * 180) 360

/-- Model of `np.arctan2(y, x)`: the angle of the point `(x, y)` in `(-π, π]`, with
`arctan2(0, 0) = 0`; this is the argument of the complex number `x + y*i`. -/
noncomputable def arctan2 (y x : ℝ) : ℝ := Complex.arg ⟨x, y⟩

/-- Model of `cart2sph(x, y, z)` (default `steady_colat=False`), elementwise:
`r = sqrt(x²+y²+z²)`, `azi = arctan2(y, x)`, `colat = arccos(z / r)`. -/
noncomputable def cart2sph (x y z : ℝ) : ℝ × ℝ × ℝ :=
  let r := Real.sqrt (x ^ 2 + y ^ 2 + z ^ 2)
  let azi := arctan2 y x
  let colat := Real.arccos (z / r)
  (azi, colat, r)

/-- Model of `sph2cart(azi, colat, r)`, elementwise:
`x = r·cos(azi)·sin(colat)`, `y = r·sin(azi)·sin(colat)`, `z = r·cos(colat)`. -/
noncomputable def sph2cart (azi colat r : ℝ) : ℝ × ℝ × ℝ :=
  (r * Real.cos azi * Real.sin colat,
   r * Real.sin azi * Real.sin colat,
   r * Real.cos colat)

/-- Model of `matlab_sph2cart(az, elev, r)` (elevation convention), elementwise:
`z = r·sin(elev)`, `rcoselev = r·cos(elev)`, `x = rcoselev·cos(az)`,
`y = rcoselev·sin(az)`. -/
noncomputable def matlab_sph2cart (az elev r : ℝ) : ℝ × ℝ × ℝ :=
  let z := r * Real.sin elev
  let rcoselev := r * Real.cos elev
  (rcoselev * Real.cos az, rcoselev * Real.sin az, z)

/-- Model of `haversine(azi1, colat1, azi2, colat2, r)`, elementwise. -/
noncomputable def haversine (azi1 colat1 azi2 colat2 r : ℝ) : ℝ :=
  let lat1 := Real.pi / 2 - colat1
  let lat2 := Real.pi / 2 - colat2
  let dlon := azi2 - azi1
  let dlat := lat2 - lat1
  let haversin_A := Real.sin (dlat / 2) ^ 2
  let haversin_B := Real.sin (dlon / 2) ^ 2
  let haversin_alpha := haversin_A + Real.cos lat1 * Real.cos lat2 * haversin_B
  2 * r * Real.arcsin (Real.sqrt haversin_alpha)

/-- Model of `np.log10` on a nonnegative real, with the IEEE special value
`log10(0) = -∞` (the divide warning is suppressed in the source), valued in
the extended reals. -/
noncomputable def np_log10 (x : ℝ) : EReal :=
  if x = 0 then ⊥ else ((Real.logb 10 x : ℝ) : EReal)

/-- Model of `db(x, power)`: `(10 if power else 20) * np.log10(np.abs(x))`,
elementwise, with `np.errstate(divide='ignore')`. -/
noncomputable def db (x : ℝ) (power : Bool) : EReal :=
  (((if power then 10 else 20 : ℝ)) : EReal) * np_log10 |x|

/-! ## Helper lemmas -/

theorem fmod_nonneg (x m : ℝ) (hm : 0 < m) : 0 ≤ fmod x m := by
  have h := Int.floor_le (x / m)
  have h1 : m * (⌊x / m⌋ : ℝ) ≤ m * (x / m) := mul_le_mul_of_nonneg_left h hm.le
  have h2 : m * (x / m) = x := by field_simp
  unfold fmod
  linarith

theorem fmod_lt (x m : ℝ) (hm : 0 < m) : fmod x m < m := by
  have h := Int.lt_floor_add_one (x / m)
  have h1 : m * (x / m) < m * ((⌊x / m⌋ : ℝ) + 1) := (mul_lt_mul_left hm).mpr h
  have h2 : m * (x / m) = x := by field_simp
  have h3 : m * ((⌊x / m⌋ : ℝ) + 1) = m * (⌊x / m⌋ : ℝ) + m := by ring
  unfold fmod
  linarith

theorem sin_half_sq_symm (u v : ℝ) :
    Real.sin ((u - v) / 2) ^ 2 = Real.sin ((v - u) / 2) ^ 2 := by
  rw [show (u - v) / 2 = -((v - u) / 2) by ring, Real.sin_neg]
  ring_nf

/-! ## Claim theorems -/

/-- C10: the Shape Validator accepts an empty one-dimensional input,
returning the empty one-dimensional sequence without error. -/
theorem asarray_1d_empty : asarray_1d ⟨[0], []⟩ = .ok ⟨[0], []⟩ := by rfl

/-- C7: the Shape Validator raises for any input that still has more than
one dimension after squeezing; a bare scalar `5` is promoted to `[5]`; any
input reducible by squeezing to one dimension is returned as that
one-dimensional sequence without error. -/
theorem asarray_1d_spec (a : NDArray) :
    ((squeeze a).shape.length > 1 →
      asarray_1d a = .error "array must be one-dimensional") ∧
    asarray_1d ⟨[], [5]⟩ = .ok ⟨[1], [5]⟩ ∧
    ((squeeze a).shape.length = 1 → asarray_1d a = .ok (squeeze a)) := by
  refine ⟨?_, by rfl, ?_⟩
  · intro h
    unfold asarray_1d
    rw [if_neg (by omega), if_pos h]
  · intro h
    unfold asarray_1d
    rw [if_neg (by omega), if_neg (by omega)]

theorem asarray_1d_spec_witness :
    ((squeeze ⟨[2, 2], [1, 2, 3, 4]⟩).shape.length > 1 ∧
      asarray_1d ⟨[2, 2], [1, 2, 3, 4]⟩ = .error "array must be one-dimensional") ∧
    ((squeeze ⟨[1, 3], [6, 7, 8]⟩).shape.length = 1 ∧
      asarray_1d ⟨[1, 3], [6, 7, 8]⟩ = .ok (squeeze ⟨[1, 3], [6, 7, 8]⟩)) :=
  ⟨⟨by decide, (asarray_1d_spec ⟨[2, 2], [1, 2, 3, 4]⟩).1 (by decide)⟩,
   ⟨by decide, (asarray_1d_spec ⟨[1, 3], [6, 7, 8]⟩).2.2 (by decide)⟩⟩

/-- C5: `db` applied to `0` is negative infinity, in both the amplitude
mode (`power = false`) and the power mode (`power = true`). -/
theorem db_zero_bot : db 0 false = ⊥ ∧ db 0 true = ⊥ := by
  have h20 : ((20 : ℝ) : EReal) * (⊥ : EReal) = ⊥ :=
    EReal.coe_mul_bot_of_pos (by norm_num)
  have h10 : ((10 : ℝ) : EReal) * (⊥ : EReal) = ⊥ :=
    EReal.coe_mul_bot_of_pos (by norm_num)
  constructor
  · simpa [db, np_log10] using h20
  · simpa [db, np_log10] using h10

/-- C4: `deg2rad` output lies in `[0, 2π)` and `rad2deg` output lies in
`[0, 360)` for every real input; `deg2rad` first reduces the input modulo
360 into `[0, 360)` and then scales by `π/180`, and `-10` degrees maps to
the radian value of `350` degrees. -/
theorem deg2rad_rad2deg_range (d r : ℝ) :
    (0 ≤ deg2rad d ∧ deg2rad d < 2 * Real.pi) ∧
    (0 ≤ rad2deg r ∧ rad2deg r < 360) ∧
    deg2rad d = fmod d 360 / 180 * Real.pi ∧
    (0 ≤ fmod d 360 ∧ fmod d 360 < 360) ∧
    deg2rad (-10) = deg2rad 350 := by
  have hpi := Real.pi_pos
  have h1 : 0 ≤ fmod d 360 := fmod_nonneg d 360 (by norm_num)
  have h2 : fmod d 360 < 360 := fmod_lt d 360 (by norm_num)
  refine ⟨⟨?_, ?_⟩, ⟨?_, ?_⟩, rfl, ⟨h1, h2⟩, ?_⟩
  · exact mul_nonneg (div_nonneg h1 (by norm_num)) hpi.le
  · have hd : fmod d 360 / 180 < 2 := by linarith
    have := mul_lt_mul_of_pos_right hd hpi
    simpa [deg2rad] using this
  · exact fmod_nonneg _ 360 (by norm_num)
  · exact fmod_lt _ 360 (by norm_num)
  · have e1 : fmod (-10) 360 = 350 := by
      have hf : ⌊(-10 : ℝ) / 360⌋ = -1 := by
        rw [Int.floor_eq_iff]
        constructor <;> norm_num
      unfold fmod
      rw [hf]
      norm_num
    have e2 : fmod (350 : ℝ) 360 = 350 := by
      have hf : ⌊(350 : ℝ) / 360⌋ = 0 := by
        rw [Int.floor_eq_iff]
        constructor <;> norm_num
      unfold fmod
      rw [hf]
      norm_num
    unfold deg2rad
    rw [e1, e2]

/-- C8: the haversine distance between identical points is zero, and
haversine is symmetric in its two points. -/
theorem haversine_self_symm (a b c d r : ℝ) :
    haversine a b a b r = 0 ∧ haversine a b c d r = haversine c d a b r := by
  constructor
  · simp [haversine]
  · simp only [haversine]
    rw [sin_half_sq_symm (Real.pi / 2 - d) (Real.pi / 2 - b), sin_half_sq_symm c a]
    ring_nf

/-- C9: the legacy elevation-based transform agrees with the primary
transform at colatitude `π/2 - elevation`, for every azimuth, elevation and
radius. -/
theorem matlab_sph2cart_eq_sph2cart (az elev r : ℝ) :
    matlab_sph2cart az elev r = sph2cart az (Real.pi / 2 - elev) r := by
  simp only [matlab_sph2cart, sph2cart, Real.sin_pi_div_two_sub,
    Real.cos_pi_div_two_sub, Prod.mk.injEq]
  refine ⟨by ring, by ring, by ring_nf⟩

theorem setOddRows_repeatRows (l r : List (List ℚ)) (h : l.length = r.length) :
    setOddRows (repeatRows l) r = (l.zip r).flatMap fun p => [p.1, p.2] := by
  induction l generalizing r with
  | nil =>
    cases r with
    | nil => rfl
    | cons b rs => simp at h
  | cons a l ih =>
    cases r with
    | nil => simp at h
    | cons b rs =>
      have hl : l.length = rs.length := by simpa using h
      show setOddRows (a :: a :: repeatRows l) (b :: rs)
          = a :: b :: ((l.zip rs).flatMap fun p => [p.1, p.2])
      rw [show setOddRows (a :: a :: repeatRows l) (b :: rs)
            = a :: b :: setOddRows (repeatRows l) rs from rfl, ih rs hl]

theorem interleaved_length (l r : List (List ℚ)) (h : l.length = r.length) :
    ((l.zip r).flatMap fun p => [p.1, p.2]).length = 2 * l.length := by
  induction l generalizing r with
  | nil => simp
  | cons a l ih =>
    cases r with
    | nil => simp at h
    | cons b rs =>
      have hl : l.length = rs.length := by simpa using h
      simp only [List.zip_cons_cons, List.flatMap_cons, List.cons_append,
        List.nil_append, List.length_cons, ih rs hl]
      omega

theorem interleaved_get (l r : List (List ℚ)) (k : Nat) (hk : k < l.length)
    (h : l.length = r.length) :
    (((l.zip r).flatMap fun p => [p.1, p.2])[2 * k]? = l[k]?) ∧
    (((l.zip r).flatMap fun p => [p.1, p.2])[2 * k + 1]? = r[k]?) := by
  induction l generalizing r k with
  | nil => simp at hk
  | cons a l ih =>
    cases r with
    | nil => simp at h
    | cons b rs =>
      have hl : l.length = rs.length := by simpa using h
      have e : ((a :: l).zip (b :: rs)).flatMap (fun p => [p.1, p.2])
          = a :: b :: ((l.zip rs).flatMap fun p => [p.1, p.2]) := by
        simp
      cases k with
      | zero =>
        rw [e]
        refine ⟨?_, ?_⟩ <;> simp
      | succ k =>
        have hk' : k < l.length := by simpa using hk
        constructor
        · rw [e, show 2 * (k + 1) = 2 * k + 1 + 1 by ring]
          simp only [List.getElem?_cons_succ]
          exact (ih rs k hk' hl).1
        · rw [e, show 2 * (k + 1) + 1 = 2 * k + 1 + 1 + 1 by ring]
          simp only [List.getElem?_cons_succ]
          exact (ih rs k hk' hl).2

/-- C3: for equal-shaped channel matrices, `interleave_channels` succeeds
with twice as many rows, even output rows copying the left channel and odd
output rows the right channel; in particular on the concrete 2×3 example it
returns the specified 4×3 matrix. -/
theorem interleave_channels_alternates (left right : List (List ℚ))
    (h : sameShape left right) :
    (∃ out, interleave_channels left right none = .ok out ∧
      out.length = 2 * left.length ∧
      ∀ k, k < left.length → out[2 * k]? = left[k]? ∧ out[2 * k + 1]? = right[k]?) ∧
    interleave_channels [[1, 1, 1], [2, 2, 2]] [[10, 10, 10], [20, 20, 20]] none
      = .ok [[1, 1, 1], [10, 10, 10], [2, 2, 2], [20, 20, 20]] := by
  have hlen : left.length = right.length := h.1
  constructor
  · refine ⟨(left.zip right).flatMap fun p => [p.1, p.2], ?_,
      interleaved_length left right hlen, fun k hk => interleaved_get left right k hk hlen⟩
    unfold interleave_channels
    rw [if_neg (not_not_intro h), if_neg (by simp),
      setOddRows_repeatRows left right hlen]
  · rfl

theorem interleave_channels_alternates_witness :
    sameShape [[(1 : ℚ)], [2]] [[3], [4]] ∧
    ((∃ out, interleave_channels [[(1 : ℚ)], [2]] [[3], [4]] none = .ok out ∧
        out.length = 2 * ([[(1 : ℚ)], [2]] : List (List ℚ)).length ∧
        ∀ k, k < ([[(1 : ℚ)], [2]] : List (List ℚ)).length →
          out[2 * k]? = ([[(1 : ℚ)], [2]] : List (List ℚ))[k]? ∧
          out[2 * k + 1]? = ([[(3 : ℚ)], [4]] : List (List ℚ))[k]?) ∧
      interleave_channels [[1, 1, 1], [2, 2, 2]] [[10, 10, 10], [20, 20, 20]] none
        = .ok [[1, 1, 1], [10, 10, 10], [2, 2, 2], [20, 20, 20]]) :=
  ⟨⟨rfl, rfl⟩, interleave_channels_alternates [[(1 : ℚ)], [2]] [[3], [4]] ⟨rfl, rfl⟩⟩

/-- C6: `interleave_channels` raises an error iff the shapes differ, or the
style is `'SSR'` and the channel count is not exactly 360; equal-shaped
inputs with 360 channels succeed under the SSR style. -/
theorem interleave_channels_error_iff (left right : List (List ℚ))
    (style : Option String) :
    ((∃ e, interleave_channels left right style = .error e) ↔
      (¬ sameShape left right ∨ (style = some "SSR" ∧ left.length ≠ 360))) ∧
    (sameShape left right → left.length = 360 →
      ∃ out, interleave_channels left right (some "SSR") = .ok out) := by
  constructor
  · by_cases h1 : sameShape left right
    · by_cases h2 : style = some "SSR" ∧ ¬ left.length = 360
      · unfold interleave_channels
        rw [if_neg (not_not_intro h1), if_pos h2]
        simp [h1, h2.1, h2.2]
      · unfold interleave_channels
        rw [if_neg (not_not_intro h1), if_neg h2]
        simp only [not_and, not_not] at h2
        simp [h1]
        tauto
    · unfold interleave_channels
      rw [if_pos h1]
      simp [h1]
  · intro h1 h2
    unfold interleave_channels
    rw [if_neg (not_not_intro h1), if_neg (by simp [h2])]
    exact ⟨_, rfl⟩

theorem interleave_channels_error_iff_witness :
    sameShape (List.replicate 360 [(0 : ℚ)]) (List.replicate 360 [(0 : ℚ)]) ∧
    (List.replicate 360 [(0 : ℚ)]).length = 360 ∧
    ∃ out, interleave_channels (List.replicate 360 [(0 : ℚ)])
      (List.replicate 360 [(0 : ℚ)]) (some "SSR") = .ok out := by
  have h1 : sameShape (List.replicate 360 [(0 : ℚ)]) (List.replicate 360 [(0 : ℚ)]) :=
    ⟨rfl, rfl⟩
  have h2 : (List.replicate 360 [(0 : ℚ)]).length = 360 := List.length_replicate 360 _
  exact ⟨h1, h2,
    (interleave_channels_error_iff (List.replicate 360 [(0 : ℚ)])
      (List.replicate 360 [(0 : ℚ)]) (some "SSR")).2 h1 h2⟩

/-- C1 counterexample: on two equal square 2×2 inputs `stack` raises the
"no common dimension" error instead of concatenating vertically (the strict
`M1 < N1 or M2 < N2` guard fails when all dimensions are equal). -/
theorem stack_square_counterexample :
    stack ⟨[2, 2], [1, 2, 3, 4]⟩ ⟨[2, 2], [5, 6, 7, 8]⟩
        = .error "vector_1 and vector_2 dont have a common dimension." ∧
    stack ⟨[2, 2], [1, 2, 3, 4]⟩ ⟨[2, 2], [5, 6, 7, 8]⟩
        ≠ .ok ⟨[4, 2], [1, 2, 3, 4, 5, 6, 7, 8]⟩ := by
  refine ⟨rfl, ?_⟩
  intro hc
  exact Except.noConfusion hc

/-- C1 (amended): for two inputs whose promoted 2-D shapes are equal and
square (`M1 = N1 = M2 = N2`), `stack` raises the "no common dimension"
error: neither branch applies because each requires the shared dimension to
be strictly smaller than the other one. -/
theorem stack_square_raises (v1 v2 : NDArray) (M : Nat)
    (h1 : (atleast_2d v1).shape = [M, M]) (h2 : (atleast_2d v2).shape = [M, M]) :
    stack v1 v2 = .error "vector_1 and vector_2 dont have a common dimension." := by
  simp only [stack]
  rw [h1, h2]
  simp [lt_irrefl]

theorem stack_square_raises_witness :
    (atleast_2d ⟨[1, 1], [7]⟩).shape = [1, 1] ∧
    (atleast_2d ⟨[1, 1], [9]⟩).shape = [1, 1] ∧
    stack ⟨[1, 1], [7]⟩ ⟨[1, 1], [9]⟩
      = .error "vector_1 and vector_2 dont have a common dimension." :=
  ⟨rfl, rfl, stack_square_raises ⟨[1, 1], [7]⟩ ⟨[1, 1], [9]⟩ 1 rfl rfl⟩

/-- C2: for every Cartesian triple with `r = sqrt(x²+y²+z²) > 0`, applying
`cart2sph` and then `sph2cart` reconstructs `(x, y, z)` exactly, in
idealized real arithmetic. -/
theorem cart2sph_sph2cart_roundtrip (x y z : ℝ)
    (h : 0 < Real.sqrt (x ^ 2 + y ^ 2 + z ^ 2)) :
    sph2cart (cart2sph x y z).1 (cart2sph x y z).2.1 (cart2sph x y z).2.2
      = (x, y, z) := by
  have hsum : (0 : ℝ) ≤ x ^ 2 + y ^ 2 + z ^ 2 := by positivity
  simp only [cart2sph, sph2cart, Prod.mk.injEq]
  set r := Real.sqrt (x ^ 2 + y ^ 2 + z ^ 2) with hr
  have hrpos : 0 < r := h
  have hr2 : r ^ 2 = x ^ 2 + y ^ 2 + z ^ 2 := Real.sq_sqrt hsum
  have hrne : r ≠ 0 := ne_of_gt hrpos
  have hz2 : z ^ 2 ≤ r ^ 2 := by nlinarith [sq_nonneg x, sq_nonneg y]
  have hzle : z ≤ r := by nlinarith
  have hzge : -r ≤ z := by nlinarith
  have hb1 : -1 ≤ z / r := by
    rw [le_div_iff₀ hrpos]
    linarith
  have hb2 : z / r ≤ 1 := by
    rw [div_le_one hrpos]
    exact hzle
  have hsin : Real.sin (Real.arccos (z / r)) = Real.sqrt (x ^ 2 + y ^ 2) / r := by
    rw [Real.sin_arccos]
    have h1 : 1 - (z / r) ^ 2 = (x ^ 2 + y ^ 2) / r ^ 2 := by
      field_simp
      linarith
    rw [h1, Real.sqrt_div (by positivity), Real.sqrt_sq hrpos.le]
  have hcos : Real.cos (Real.arccos (z / r)) = z / r := Real.cos_arccos hb1 hb2
  by_cases hxy : x ^ 2 + y ^ 2 = 0
  · have hx0 : x = 0 := by nlinarith [sq_nonneg x, sq_nonneg y]
    have hy0 : y = 0 := by nlinarith [sq_nonneg x, sq_nonneg y]
    have hs0 : Real.sqrt (x ^ 2 + y ^ 2) = 0 := by rw [hxy, Real.sqrt_zero]
    have hsin0 : Real.sin (Real.arccos (z / r)) = 0 := by rw [hsin, hs0, zero_div]
    refine ⟨?_, ?_, ?_⟩
    · rw [hsin0, mul_zero, hx0]
    · rw [hsin0, mul_zero, hy0]
    · rw [hcos]
      field_simp
  · have hs_pos : 0 < Real.sqrt (x ^ 2 + y ^ 2) :=
      Real.sqrt_pos.mpr (lt_of_le_of_ne (by positivity) (Ne.symm hxy))
    have hsne : Real.sqrt (x ^ 2 + y ^ 2) ≠ 0 := ne_of_gt hs_pos
    have hne : (⟨x, y⟩ : ℂ) ≠ 0 := by
      intro hc
      rw [Complex.ext_iff] at hc
      simp only [Complex.zero_re, Complex.zero_im] at hc
      exact hxy (by rw [hc.1, hc.2]; ring)
    have habs : Complex.abs ⟨x, y⟩ = Real.sqrt (x ^ 2 + y ^ 2) := by
      rw [Complex.abs_apply, Complex.normSq_mk,
        show x * x + y * y = x ^ 2 + y ^ 2 by ring]
    have hcosarg : Real.cos (arctan2 y x) = x / Real.sqrt (x ^ 2 + y ^ 2) := by
      unfold arctan2
      rw [Complex.cos_arg hne, habs]
    have hsinarg : Real.sin (arctan2 y x) = y / Real.sqrt (x ^ 2 + y ^ 2) := by
      unfold arctan2
      rw [Complex.sin_arg, habs]
    refine ⟨?_, ?_, ?_⟩
    · rw [hcosarg, hsin]
      field_simp
    · rw [hsinarg, hsin]
      field_simp
    · rw [hcos]
      field_simp

theorem cart2sph_sph2cart_roundtrip_witness :
    0 < Real.sqrt ((1 : ℝ) ^ 2 + 0 ^ 2 + 0 ^ 2) ∧
    sph2cart (cart2sph 1 0 0).1 (cart2sph 1 0 0).2.1 (cart2sph 1 0 0).2.2
      = ((1 : ℝ), (0 : ℝ), (0 : ℝ)) := by
  have h : 0 < Real.sqrt ((1 : ℝ) ^ 2 + 0 ^ 2 + 0 ^ 2) := by
    rw [show ((1 : ℝ) ^ 2 + 0 ^ 2 + 0 ^ 2) = 1 by norm_num, Real.sqrt_one]
    norm_num
  exact ⟨h, cart2sph_sph2cart_roundtrip 1 0 0 h⟩

end SpaUtils
